import Mathlib

/-!
# Verification of the intent-routing and entity-resolution pipeline

Shallow embedding of the core of the `agentDemo` audit-management chatbot:

* `Difflib` — model of Python's `difflib.SequenceMatcher` (with `isjunk = None`
  and the default `autojunk = True`), the primitive behind
  `ExecutionEntityExtractor.similarity` in
  `backend/CiscoAgents/AuditExecutionAgent.py`.
* `AuditExec` — model of `ExecutionEntityExtractor` (lookup-map construction,
  text preprocessing, and the five-stage `extract_audit_entities` cascade).
* `Orchestrator` — model of `OrchestratorAgent.handle_task`,
  `route_to_agent` and `extract_intent_from_llm_response`
  (`backend/CiscoAgents/OrchestratorAgent.py`).
* `Db` — model of the cache-refresh behaviour of `backend/database.py`
  (`refresh_all_data`, `load_audits_data_from_db`, `insert_engineer_task`)
  and the extractor-level `refresh_data_if_needed`.
* `Classifier` — model of the lazy weight-loading behaviour of
  `IntentClassifier.predict` and of the orchestrator's `predict_intent`.

Machine floats are modelled by `ℚ`; the numeric literals appearing in the code
(`0.70`, `0.85`, `0.8`, `0.5`) are exact at every comparison relevant here.
-/

namespace Difflib

/-- State of difflib's `find_longest_match`: the current best block
`a[besti : besti+bestsize] == b[bestj : bestj+bestsize]`. -/
structure FlmState where
  besti : Nat
  bestj : Nat
  bestsize : Nat
  deriving Repr, DecidableEq

/-- `b2j` of `SequenceMatcher.__chain_b`: the increasing list of indices `j`
with `b[j] = c`.  `isjunk` is `None` in the source, so there is no explicit
junk; the default `autojunk = True` purges "popular" elements when
`len(b) >= 200` (an element is popular when it occurs more than
`len(b) // 100 + 1` times). -/
def b2j (b : List Char) (c : Char) : List Nat :=
  let idxs := (List.range b.length).filter fun j => b.get? j == some c
  if 200 ≤ b.length ∧ b.length / 100 + 1 < idxs.length then [] else idxs

/-- Lookup in the `j2len` dictionary with default `0` (`j2len.get(j, 0)`). -/
def alget (l : List (Nat × Nat)) (j : Nat) : Nat :=
  ((l.find? fun p => p.1 == j).map (·.2)).getD 0

/-- Inner loop of `find_longest_match` over the occurrence list
`b2j[a[i]]`: `continue` on `j < blo`, `break` on `j >= bhi`, otherwise
`k = newj2len[j] = j2len.get(j-1, 0) + 1` and the best block is updated
when `k > bestsize`.  (In Python `j2len.get(-1, 0) = 0`, hence the `j = 0`
guard.)  Returns the new row together with the updated best state. -/
def innerLoop (blo bhi i : Nat) (j2lenOld : List (Nat × Nat)) :
    List Nat → List (Nat × Nat) → FlmState → List (Nat × Nat) × FlmState
  | [], row, st => (row, st)
  | j :: js, row, st =>
    if j < blo then innerLoop blo bhi i j2lenOld js row st
    else if bhi ≤ j then (row, st)
    else
      let k := (if j = 0 then 0 else alget j2lenOld (j - 1)) + 1
      let st' := if st.bestsize < k then FlmState.mk (i + 1 - k) (j + 1 - k) k else st
      innerLoop blo bhi i j2lenOld js ((j, k) :: row) st'

/-- Outer loop of `find_longest_match` over `i in range(alo, ahi)`,
threading the previous row `j2len`. -/
def dpLoop (a b : List Char) (alo blo bhi : Nat) :
    List Nat → List (Nat × Nat) → FlmState → FlmState
  | [], _, st => st
  | i :: is, j2len, st =>
    let (row, st') := innerLoop blo bhi i j2len (b2j b (a.getD i ' ')) [] st
    dpLoop a b alo blo bhi is row st'

/-- First extension loop of `find_longest_match`: extend the best block
to the left over equal elements (`bjunk` is empty since `isjunk` is `None`,
so the junk-extension loops of the source never fire).  The fuel
`st.besti` bounds the number of iterations. -/
def extendLeft (a b : List Char) (alo blo : Nat) :
    Nat → FlmState → FlmState
  | 0, st => st
  | fuel + 1, st =>
    if alo < st.besti ∧ blo < st.bestj ∧
        a.get? (st.besti - 1) == b.get? (st.bestj - 1) then
      extendLeft a b alo blo fuel ⟨st.besti - 1, st.bestj - 1, st.bestsize + 1⟩
    else st

/-- Second extension loop of `find_longest_match`: extend the best block to
the right over equal elements. -/
def extendRight (a b : List Char) (ahi bhi : Nat) :
    Nat → FlmState → FlmState
  | 0, st => st
  | fuel + 1, st =>
    if st.besti + st.bestsize < ahi ∧ st.bestj + st.bestsize < bhi ∧
        a.get? (st.besti + st.bestsize) == b.get? (st.bestj + st.bestsize) then
      extendRight a b ahi bhi fuel ⟨st.besti, st.bestj, st.bestsize + 1⟩
    else st

/-- `SequenceMatcher.find_longest_match(alo, ahi, blo, bhi)` with
`isjunk = None`. -/
def findLongestMatch (a b : List Char) (alo ahi blo bhi : Nat) : FlmState :=
  let st := dpLoop a b alo blo bhi (List.range' alo (ahi - alo)) [] ⟨alo, blo, 0⟩
  let st := extendLeft a b alo blo st.besti st
  extendRight a b ahi bhi ahi st

/-- Total size of all matching blocks found by `get_matching_blocks`,
expressed by the recursion the queue in the source implements: take the
longest match, then recurse on the region to its left and the region to its
right.  `fuel` bounds the recursion depth; `a.length + b.length + 1` is
always sufficient. -/
def matchTotal (a b : List Char) :
    Nat → Nat → Nat → Nat → Nat → Nat
  | 0, _, _, _, _ => 0
  | fuel + 1, alo, ahi, blo, bhi =>
    let m := findLongestMatch a b alo ahi blo bhi
    if m.bestsize = 0 then 0
    else
      m.bestsize
        + (if alo < m.besti ∧ blo < m.bestj then
            matchTotal a b fuel alo m.besti blo m.bestj else 0)
        + (if m.besti + m.bestsize < ahi ∧ m.bestj + m.bestsize < bhi then
            matchTotal a b fuel (m.besti + m.bestsize) ahi (m.bestj + m.bestsize) bhi
          else 0)

/-- The match count `M = sum(triple[-1] for triple in self.get_matching_blocks())`. -/
def matchCount (a b : List Char) : Nat :=
  matchTotal a b (a.length + b.length + 1) 0 a.length 0 b.length

end Difflib

/-- An exact nonnegative rational as an unreduced fraction.  All float values
arising in the modelled code are ratios of small nonnegative integers, and all
float comparisons the code performs are exact at these values, so they are
modelled by exact fraction comparisons (cross-multiplication over `Nat`,
which the kernel can evaluate; `ℚ` itself normalizes through `Nat.gcd` and
does not reduce).  `toRat` interprets a `Frac` as the rational it denotes. -/
structure Frac where
  num : Nat
  den : Nat
  deriving Repr, DecidableEq

namespace Frac

/-- The rational number denoted by the fraction. -/
def toRat (x : Frac) : ℚ := (x.num : ℚ) / (x.den : ℚ)

/-- `x ≤ y` by cross-multiplication (exact for positive denominators). -/
def fle (x y : Frac) : Bool := x.num * y.den ≤ y.num * x.den

/-- `x < y` by cross-multiplication (exact for positive denominators). -/
def flt (x y : Frac) : Bool := x.num * y.den < y.num * x.den

/-- Product of two fractions. -/
def mul (x y : Frac) : Frac := ⟨x.num * y.num, x.den * y.den⟩

theorem fle_iff_toRat {x y : Frac} (hx : 0 < x.den) (hy : 0 < y.den) :
    fle x y = true ↔ x.toRat ≤ y.toRat := by
  have hx' : (0 : ℚ) < x.den := by exact_mod_cast hx
  have hy' : (0 : ℚ) < y.den := by exact_mod_cast hy
  simp only [fle, toRat, decide_eq_true_eq, div_le_div_iff₀ hx' hy']
  constructor
  · intro h; exact_mod_cast h
  · intro h; exact_mod_cast h

theorem flt_iff_toRat {x y : Frac} (hx : 0 < x.den) (hy : 0 < y.den) :
    flt x y = true ↔ x.toRat < y.toRat := by
  have hx' : (0 : ℚ) < x.den := by exact_mod_cast hx
  have hy' : (0 : ℚ) < y.den := by exact_mod_cast hy
  simp only [flt, toRat, decide_eq_true_eq, div_lt_div_iff₀ hx' hy']
  constructor
  · intro h; exact_mod_cast h
  · intro h; exact_mod_cast h

theorem toRat_mul (x y : Frac) : (mul x y).toRat = x.toRat * y.toRat := by
  simp only [mul, toRat, Nat.cast_mul]
  rw [div_mul_div_comm]

theorem toRat_nonneg (x : Frac) : 0 ≤ x.toRat := by
  unfold toRat; positivity

end Frac

namespace Difflib

/-- `difflib._calculate_ratio`: `2.0 * M / T` when `T = len(a) + len(b)` is
nonzero, else `1.0`. -/
def ratio (a b : List Char) : Frac :=
  if a.length + b.length = 0 then ⟨1, 1⟩
  else ⟨2 * matchCount a b, a.length + b.length⟩

end Difflib

namespace AuditExec

/-- One audit record as produced by `load_audits_data_from_db` (the fields the
extractor reads; `audit_id` is stringified by the loader). -/
structure Audit where
  audit_id : String
  audit_name : String
  audit_category : String
  deriving Repr, DecidableEq

/-- One extracted entity: a `{"value": ..., "confidence": ...}` dict. -/
structure Entity where
  value : String
  confidence : Frac
  deriving Repr, DecidableEq

/-- The dict returned by `extract_audit_entities`.  The `entities` sub-dict
only ever holds the keys `audit_id`, `audit_name`, `audit_category`, modelled
as three optional fields; `rtype` is the `"type"` key. -/
structure ExtractionResult where
  audit_id : Option Entity
  audit_name : Option Entity
  audit_category : Option Entity
  rtype : String
  category_audits : List Audit
  success : Bool
  deriving Repr, DecidableEq

/-- Python `str.lower()` (ASCII model). -/
def lowerStr (s : String) : String := String.mk (s.data.map Char.toLower)

/-- `ExecutionEntityExtractor.similarity`:
`SequenceMatcher(None, a.lower(), b.lower()).ratio()`. -/
def similarity (a b : String) : Frac :=
  Difflib.ratio (a.data.map Char.toLower) (b.data.map Char.toLower)

/-- A regex `\w` character (ASCII model): alphanumeric or underscore. -/
def isWordChar (c : Char) : Bool := c.isAlphanum || c == '_'

/-- Python `str.split()` (no separator): split on runs of whitespace,
discarding empty pieces. -/
def pySplitAux : List Char → List Char → List (List Char)
  | [], cur => if cur.isEmpty then [] else [cur.reverse]
  | c :: cs, cur =>
    if c.isWhitespace then
      if cur.isEmpty then pySplitAux cs [] else cur.reverse :: pySplitAux cs []
    else pySplitAux cs (c :: cur)

/-- Python `str.split()` on a character list. -/
def pySplit (l : List Char) : List (List Char) := pySplitAux l []

/-- `ExecutionEntityExtractor.preprocess_text`:
`re.sub(r'[^\w\s]', ' ', text)`, then `' '.join(text.split())`, then
`.lower()`. -/
def preprocess_text (text : List Char) : List Char :=
  let t1 := text.map fun c => if !isWordChar c && !c.isWhitespace then ' ' else c
  (List.intercalate [' '] (pySplit t1)).map Char.toLower

/-- Python substring test `needle in hay`. -/
def listContains (hay needle : List Char) : Bool :=
  (List.range (hay.length + 1)).any fun i => needle.isPrefixOf (hay.drop i)

/-- Python-dict insertion: replace the value in place if the key exists
(keeping its position), else append.  Models `d[k] = v`. -/
def upsert {V : Type} (k : String) (v : V) :
    List (String × V) → List (String × V)
  | [] => [(k, v)]
  | (k', v') :: rest =>
    if k' == k then (k, v) :: rest else (k', v') :: upsert k v rest

/-- Python-dict lookup `d.get(k)`. -/
def alookup {V : Type} (m : List (String × V)) (k : String) : Option V :=
  (m.find? fun p => p.1 == k).map (·.2)

/-- `self.audit_name_to_id` built by `_build_lookup_maps`:
`audit_name.lower() → audit_id` in catalog insertion order. -/
def audit_name_to_id (audits : List Audit) : List (String × String) :=
  audits.foldl (fun m a => upsert (lowerStr a.audit_name) a.audit_id m) []

/-- `self.audit_id_to_name` built by `_build_lookup_maps`:
`audit_id → audit_name` (original casing). -/
def audit_id_to_name (audits : List Audit) : List (String × String) :=
  audits.foldl (fun m a => upsert a.audit_id a.audit_name m) []

/-- `self.audit_categories` built by `_build_lookup_maps`: the set of
lowercased categories.  Python iterates this `set` in an unspecified order;
it is modelled as the first-occurrence-ordered list of distinct elements (no
claim below depends on the iteration order within this set). -/
def audit_categories (audits : List Audit) : List String :=
  audits.foldl
    (fun s a =>
      if s.contains (lowerStr a.audit_category) then s
      else s ++ [lowerStr a.audit_category]) []

/-- Append to the list stored under a key (models
`self.category_to_audits[cat].append(audit)` after a `[]` default). -/
def appendEntry (k : String) (a : Audit) :
    List (String × List Audit) → List (String × List Audit)
  | [] => [(k, [a])]
  | (k', l) :: rest =>
    if k' == k then (k, l ++ [a]) :: rest else (k', l) :: appendEntry k a rest

/-- `self.category_to_audits` built by `_build_lookup_maps`. -/
def category_to_audits (audits : List Audit) : List (String × List Audit) :=
  audits.foldl (fun m a => appendEntry (lowerStr a.audit_category) a m) []

/-- `get_audits_by_category`: `self.category_to_audits.get(category.lower(), [])`. -/
def get_audits_by_category (audits : List Audit) (category : String) : List Audit :=
  (alookup (category_to_audits audits) (lowerStr category)).getD []

/-! ### Stage 1: exact audit-id match

The seven `audit_id_patterns` regexes are applied to `text_clean` by
`re.findall`.  `text_clean` consists of `\w`-words separated by single
spaces, on which each pattern is equivalent to the word-level scan below
(`\b` falls on word edges, `\s+` is one space, `(\d+)\b` forces an
all-digit remainder of the word; matches of one pattern never overlap). -/

/-- A nonempty all-digit word (`(\d+)\b` landing on a whole word). -/
def isDigitsWord (w : List Char) : Bool := !w.isEmpty && w.all (·.isDigit)

/-- Capture of `r'\baudit\s+(?:id\s+)?(\d+)\b'` anchored at word `k`. -/
def p1At (ws : List (List Char)) (k : Nat) : Option (List Char) :=
  match ws.get? k, ws.get? (k + 1) with
  | some w, some w1 =>
    if w == "audit".data then
      if w1 == "id".data then
        match ws.get? (k + 2) with
        | some w2 => if isDigitsWord w2 then some w2 else none
        | none => none
      else if isDigitsWord w1 then some w1 else none
    else none
  | _, _ => none

/-- Capture of `r'\bid\s+(\d+)\b'` anchored at word `k`. -/
def p2At (ws : List (List Char)) (k : Nat) : Option (List Char) :=
  match ws.get? k, ws.get? (k + 1) with
  | some w, some w1 =>
    if w == "id".data && isDigitsWord w1 then some w1 else none
  | _, _ => none

/-- Capture of `r'\b<verb>\s+(?:audit\s+)?(\d+)\b'` anchored at word `k`
(patterns 3–6, with verb `execute`/`run`/`start`/`launch`). -/
def pVerbAt (verb : List Char) (ws : List (List Char)) (k : Nat) :
    Option (List Char) :=
  match ws.get? k, ws.get? (k + 1) with
  | some w, some w1 =>
    if w == verb then
      if w1 == "audit".data then
        match ws.get? (k + 2) with
        | some w2 => if isDigitsWord w2 then some w2 else none
        | none => none
      else if isDigitsWord w1 then some w1 else none
    else none
  | _, _ => none

/-- The ordinal suffixes of pattern 7, `(?:st|nd|rd|th)?`, including the
empty alternative. -/
def ordSuffixes : List (List Char) :=
  ["st".data, "nd".data, "rd".data, "th".data, []]

/-- Capture of `r'\b(\d+)(?:st|nd|rd|th)?\s*audit\b'` anchored at word `k`:
either the word itself decomposes as digits, optional suffix, and a final
`audit` (`\s*` matching zero spaces), or the word is digits plus optional
suffix and the next word is exactly `audit`. -/
def p7At (ws : List (List Char)) (k : Nat) : Option (List Char) :=
  match ws.get? k with
  | some w =>
    let d := w.takeWhile (·.isDigit)
    let rest := w.dropWhile (·.isDigit)
    if d.isEmpty then none
    else if ordSuffixes.any fun s => rest == s ++ "audit".data then some d
    else if (ordSuffixes.any fun s => rest == s) &&
        ws.get? (k + 1) == some "audit".data then some d
    else none
  | none => none

/-- `re.findall(pattern, text_clean)`: all captures in left-to-right order. -/
def findall (pat : List (List Char) → Nat → Option (List Char))
    (ws : List (List Char)) : List (List Char) :=
  (List.range ws.length).filterMap (pat ws)

/-- The ordered `audit_id_patterns` list. -/
def audit_id_patterns :
    List (List (List Char) → Nat → Option (List Char)) :=
  [p1At, p2At, pVerbAt "execute".data, pVerbAt "run".data,
   pVerbAt "start".data, pVerbAt "launch".data, p7At]

/-- Stage 1 of `extract_audit_entities`: for each pattern in order, for each
capture in order, return the first `(match, audit_id_to_name[match])` whose
capture is a known id. -/
def stage1 (idToName : List (String × String)) (ws : List (List Char)) :
    Option (String × String) :=
  audit_id_patterns.findSome? fun pat =>
    (findall pat ws).findSome? fun m =>
      match alookup idToName (String.mk m) with
      | some nm => some (String.mk m, nm)
      | none => none

/-- Stage 2: first catalog-order `(audit_name, audit_id)` pair whose
(lowercased) name is a substring of `text_clean`. -/
def stage2 (nameToId : List (String × String)) (tc : List Char) :
    Option (String × String) :=
  nameToId.findSome? fun p =>
    if listContains tc p.1.data then some p else none

/-- Stage 3: first category that is a substring of `text_clean`. -/
def stage3 (cats : List String) (tc : List Char) : Option String :=
  cats.find? fun c => listContains tc c.data

/-- Stage 4 scoring: split the audit name into words; a word scores when
some text word has `similarity ≥ self.fuzzy_threshold (= 0.70)`;
`match_percentage = matches / len(audit_words)` (0 for an empty name). -/
def matchPercentage (tws : List (List Char)) (audit_name : String) : Frac :=
  let audit_words := pySplit audit_name.data
  let cnt := audit_words.countP fun aw =>
    tws.any fun tw =>
      Frac.fle ⟨70, 100⟩ (similarity (String.mk aw) (String.mk tw))
  if audit_words.isEmpty then ⟨0, 1⟩ else ⟨cnt, audit_words.length⟩

/-- One iteration of the stage-4 selection loop: keep a name when
`match_percentage > best_name_score` and `match_percentage >= 0.5`. -/
def fuzzy_step (tws : List (List Char)) (acc : Option String × Frac)
    (name : String) : Option String × Frac :=
  let mp := matchPercentage tws name
  if Frac.flt acc.2 mp && Frac.fle ⟨5, 10⟩ mp then (some name, mp) else acc

/-- Stage 4 selection loop over `self.audit_name_to_id.keys()`; the running
best starts at `(None, 0)`. -/
def best_fuzzy (names : List String) (tws : List (List Char)) :
    Option String × Frac :=
  names.foldl (fuzzy_step tws) (none, ⟨0, 1⟩)

/-- Stage 5: first category (in set order) such that some text word has
`similarity(word, category) ≥ self.fuzzy_threshold`. -/
def stage5 (cats : List String) (tws : List (List Char)) : Option String :=
  cats.find? fun c =>
    tws.any fun w => Frac.fle ⟨70, 100⟩ (similarity (String.mk w) c)

/-- `ExecutionEntityExtractor.extract_audit_entities` as a function of the
current `audits_data` catalog and the raw text (the preceding
`refresh_data_if_needed` call is modelled separately in `Db`).  The five
matching stages run in source order, each `return` short-circuiting the
rest. -/
def extract_audit_entities (audits : List Audit) (text : String) :
    ExtractionResult :=
  let text_clean := preprocess_text text.data
  if audits.isEmpty then
    ⟨none, none, none, "no_data", [], false⟩
  else
    let idToName := audit_id_to_name audits
    let nameToId := audit_name_to_id audits
    let cats := audit_categories audits
    let ws := pySplit text_clean
    match stage1 idToName ws with
    | some (id, nm) =>
      ⟨some ⟨id, ⟨1, 1⟩⟩, some ⟨nm, ⟨1, 1⟩⟩, none, "specific_audit", [], true⟩
    | none =>
      match stage2 nameToId text_clean with
      | some (nm, id) =>
        ⟨some ⟨id, ⟨1, 1⟩⟩, some ⟨nm, ⟨1, 1⟩⟩, none, "specific_audit", [], true⟩
      | none =>
        match stage3 cats text_clean with
        | some c =>
          ⟨none, none, some ⟨c, ⟨1, 1⟩⟩, "category_clarification",
            get_audits_by_category audits c, true⟩
        | none =>
          match best_fuzzy (nameToId.map (·.1)) ws with
          | (some name, score) =>
            let conf := Frac.mul ⟨85, 100⟩ score
            ⟨some ⟨(alookup nameToId name).getD "", conf⟩, some ⟨name, conf⟩,
              none, "specific_audit", [], true⟩
          | (none, _) =>
            match stage5 cats ws with
            | some c =>
              ⟨none, none, some ⟨c, ⟨85, 100⟩⟩, "category_clarification",
                get_audits_by_category audits c, true⟩
            | none => ⟨none, none, none, "no_match", [], false⟩

end AuditExec

namespace Orchestrator

/-- The label set of the intent classifier (the keys of `INTENT_MAPPING`;
the DistilBert model is trained with `num_labels = 7` on exactly these). -/
def INTENT_LABELS : List String :=
  ["EXECUTE_AUDIT", "LIST_AUDITS", "GET_AUDIT_HISTORY",
   "GET_AUDIT_HISTORY_FILTERED", "AUDIT_RETRIEVAL_BY_CATEGORY",
   "ENGINEER_AUDIT", "GENERAL"]

/-- `CONFIDENCE_THRESHOLD = 0.8000`. -/
def CONFIDENCE_THRESHOLD : Frac := ⟨8, 10⟩

/-- `OrchestratorAgent.extract_intent_from_llm_response`: lowercase the LLM
response, then test the fixed keyword table by substring, in source order;
`"GENERAL"` when nothing matches. -/
def extract_intent_from_llm_response (llm_response : String) : String :=
  let response_lower := (AuditExec.lowerStr llm_response).data
  if AuditExec.listContains response_lower "list_audits".data then "LIST_AUDITS"
  else if AuditExec.listContains response_lower "audit_retrieval_by_category".data then
    "AUDIT_RETRIEVAL_BY_CATEGORY"
  else if AuditExec.listContains response_lower "get_audit_history_filtered".data then
    "GET_AUDIT_HISTORY_FILTERED"
  else if AuditExec.listContains response_lower "get_audit_history".data then
    "GET_AUDIT_HISTORY"
  else if AuditExec.listContains response_lower "execute_audit".data then "EXECUTE_AUDIT"
  else if AuditExec.listContains response_lower "engineer_audit".data then "ENGINEER_AUDIT"
  else "GENERAL"

/-- Where `route_to_agent` sends the task for a given intent:
a `UserTask` published to a topic with an action tag, the special
`ENGINEER_AUDIT` insert-and-notify path, or the unreachable fallback that
sends nothing. -/
inductive RouteTarget
  | delegate (topic action : String)
  | engineer
  | unhandled
  deriving Repr, DecidableEq

/-- `OrchestratorAgent.route_to_agent` (topic/action selection; the
`ENGINEER_AUDIT` body is modelled separately by `route_engineer`). -/
def route_to_agent (intent : String) : RouteTarget :=
  if intent = "LIST_AUDITS" ∨ intent = "AUDIT_RETRIEVAL_BY_CATEGORY" ∨
      intent = "GET_AUDIT_HISTORY" ∨ intent = "GET_AUDIT_HISTORY_FILTERED" then
    RouteTarget.delegate "AuditRetrievalAgent"
      (if intent = "LIST_AUDITS" then "list_audits"
       else if intent = "AUDIT_RETRIEVAL_BY_CATEGORY" then "get_audits_by_category"
       else if intent = "GET_AUDIT_HISTORY" then "get_audit_history"
       else "get_audit_history_filtered")
  else if intent = "EXECUTE_AUDIT" then
    RouteTarget.delegate "ExecuteAuditAgent" "execute_audit"
  else if intent = "ENGINEER_AUDIT" then RouteTarget.engineer
  else RouteTarget.unhandled

/-- Observable outcome of `OrchestratorAgent.handle_task` for one message:
which intent (if any) was handed to `route_to_agent`, and which
`handle_with_llm` scenarios were invoked, in order. -/
structure HandleResult where
  routedIntent : Option String
  llmScenarios : List String
  deriving Repr, DecidableEq

/-- `OrchestratorAgent.handle_task` decision logic, as a function of the
classifier output `(intent, confidence)` and of the text the clarification
LLM would return in the low-confidence branch. -/
def handle_task (intent : String) (confidence : Frac) (llmResponse : String) :
    HandleResult :=
  if Frac.fle CONFIDENCE_THRESHOLD confidence = true ∧ intent ≠ "GENERAL" then
    ⟨some intent, []⟩
  else if intent = "GENERAL" then ⟨none, ["general"]⟩
  else
    let clarified := extract_intent_from_llm_response llmResponse
    if clarified ≠ "GENERAL" then ⟨some clarified, ["low_confidence"]⟩
    else ⟨none, ["low_confidence", "general"]⟩

/-- Outcome of the `insert_engineer_task` call made by the `ENGINEER_AUDIT`
branch of `route_to_agent`: a task id, a `None` return, or an exception. -/
inductive InsertOutcome
  | ok (task_id : Nat)
  | noId
  | raised
  deriving Repr, DecidableEq

/-- Externally visible events of the `ENGINEER_AUDIT` branch. -/
inductive Event
  | dbInsert
  | userResponse (msg : String)
  | publishEngineerTask (task_id : Nat)
  deriving Repr, DecidableEq

/-- The success message sent to the user by the `ENGINEER_AUDIT` branch. -/
def engineer_success_message : String :=
  "📤 Your audit creation request has been forwarded to our engineering team.\n⏳ Please wait for the engineer to process your request..."

/-- The error message sent to the user when `insert_engineer_task` returns no
id or raises. -/
def engineer_error_message : String :=
  "❌ Sorry, there was an error processing your request. Please try again."

/-- Event trace of the `ENGINEER_AUDIT` branch of `route_to_agent`: the
insert always runs first; on a task id the success response is sent and the
`EngineerTask` message is published; on a `None` return or an exception the
error response is sent and nothing is published.  (A failure of the publish
itself is caught and, per the source comment, does not fail the operation;
that non-determinism is irrelevant to the ordering and failure claims.) -/
def route_engineer (outcome : InsertOutcome) : List Event :=
  match outcome with
  | InsertOutcome.ok task_id =>
      [Event.dbInsert, Event.userResponse engineer_success_message,
       Event.publishEngineerTask task_id]
  | InsertOutcome.noId =>
      [Event.dbInsert, Event.userResponse engineer_error_message]
  | InsertOutcome.raised =>
      [Event.dbInsert, Event.userResponse engineer_error_message]

end Orchestrator

namespace Db

/-- The slice of the module-level `_cached_data` dict that the claims are
about (the `audits` list; the device/report slices are built the same way). -/
structure Cached where
  audits : List AuditExec.Audit
  deriving Repr, DecidableEq

/-- `load_audits_data_from_db`: the rows when the database is reachable,
`[]` when the connection cannot be made or the query raises (`db = none`). -/
def load_audits_data_from_db (db : Option (List AuditExec.Audit)) :
    List AuditExec.Audit :=
  db.getD []

/-- The dict built and returned by `refresh_all_data`. -/
def refresh_all_data (db : Option (List AuditExec.Audit)) : Cached :=
  ⟨load_audits_data_from_db db⟩

/-- The module-level `_cached_data` after `refresh_all_data` runs: the
function assigns the freshly built dict unconditionally, whatever the
previous cache held. -/
def cacheAfterRefresh (db : Option (List AuditExec.Audit))
    (_oldCache : Option Cached) : Option Cached :=
  some (refresh_all_data db)

/-- The extractor-side snapshot (`self.audits_data` of
`ExecutionEntityExtractor`). -/
structure ExtractorState where
  audits_data : List AuditExec.Audit
  deriving Repr, DecidableEq

/-- `ExecutionEntityExtractor.refresh_data_if_needed`: call
`refresh_all_data`; adopt the fresh snapshot and return `True` only when it
contains audits, else keep the current snapshot and return `False`. -/
def refresh_data_if_needed (s : ExtractorState)
    (db : Option (List AuditExec.Audit)) : ExtractorState × Bool :=
  let fresh := refresh_all_data db
  if !fresh.audits.isEmpty then (⟨fresh.audits⟩, true) else (s, false)

end Db

namespace Classifier

/-- `IntentClassifier` instance state: `__init__` sets `is_loaded = False`. -/
structure IntentClassifier where
  is_loaded : Bool
  deriving Repr, DecidableEq

/-- `IntentClassifier()`. -/
def newClassifier : IntentClassifier := ⟨false⟩

/-- `IntentClassifier.predict`: `load_model()` runs iff `is_loaded` is
false; returns the instance state after the call and whether a weight load
from the persisted store occurred. -/
def predictStep (c : IntentClassifier) : IntentClassifier × Bool :=
  if c.is_loaded then (c, false) else (⟨true⟩, true)

/-- Whether one call to the orchestrator's `predict_intent` loads weights:
it constructs `IntentClassifier()` afresh and calls `predict` on it. -/
def predict_intent_loads : Bool := (predictStep newClassifier).2

/-- Weight loads over `n` consecutive `predict` calls on one instance. -/
def instanceLoads : IntentClassifier → Nat → Nat
  | _, 0 => 0
  | c, n + 1 =>
    let (c', l) := predictStep c
    (if l then 1 else 0) + instanceLoads c' n

/-- Weight loads over `n` messages handled by the router; `handle_task`
calls `predict_intent` once per message. -/
def processLoads : Nat → Nat
  | 0 => 0
  | n + 1 => (if predict_intent_loads then 1 else 0) + processLoads n

end Classifier

namespace AuditExec

/-! ### Unfolding lemmas for the `extract_audit_entities` cascade -/

/-- Shorthand for the cleaned text of a raw input. -/
def cleanOf (text : String) : List Char := preprocess_text text.data

/-- Shorthand for the word list of a raw input. -/
def wordsOf (text : String) : List (List Char) := pySplit (cleanOf text)

theorem extract_of_empty {audits : List Audit} (text : String)
    (h : audits = []) :
    extract_audit_entities audits text = ⟨none, none, none, "no_data", [], false⟩ := by
  subst h; rfl

theorem extract_of_stage1 {audits : List Audit} {text : String}
    {id nm : String} (hne : audits ≠ [])
    (h1 : stage1 (audit_id_to_name audits) (wordsOf text) = some (id, nm)) :
    extract_audit_entities audits text =
      ⟨some ⟨id, ⟨1, 1⟩⟩, some ⟨nm, ⟨1, 1⟩⟩, none, "specific_audit", [], true⟩ := by
  have he : audits.isEmpty = false := by simp [List.isEmpty_iff, hne]
  unfold extract_audit_entities
  rw [he]
  simp only [Bool.false_eq_true, if_false]
  rw [show pySplit (preprocess_text text.data) = wordsOf text from rfl, h1]

theorem extract_of_stage2 {audits : List Audit} {text : String}
    {id nm : String} (hne : audits ≠ [])
    (h1 : stage1 (audit_id_to_name audits) (wordsOf text) = none)
    (h2 : stage2 (audit_name_to_id audits) (cleanOf text) = some (nm, id)) :
    extract_audit_entities audits text =
      ⟨some ⟨id, ⟨1, 1⟩⟩, some ⟨nm, ⟨1, 1⟩⟩, none, "specific_audit", [], true⟩ := by
  have he : audits.isEmpty = false := by simp [List.isEmpty_iff, hne]
  unfold extract_audit_entities
  rw [he]
  simp only [Bool.false_eq_true, if_false]
  rw [show pySplit (preprocess_text text.data) = wordsOf text from rfl, h1,
    show preprocess_text text.data = cleanOf text from rfl, h2]

theorem extract_of_stage3 {audits : List Audit} {text : String}
    {c : String} (hne : audits ≠ [])
    (h1 : stage1 (audit_id_to_name audits) (wordsOf text) = none)
    (h2 : stage2 (audit_name_to_id audits) (cleanOf text) = none)
    (h3 : stage3 (audit_categories audits) (cleanOf text) = some c) :
    extract_audit_entities audits text =
      ⟨none, none, some ⟨c, ⟨1, 1⟩⟩, "category_clarification",
        get_audits_by_category audits c, true⟩ := by
  have he : audits.isEmpty = false := by simp [List.isEmpty_iff, hne]
  unfold extract_audit_entities
  rw [he]
  simp only [Bool.false_eq_true, if_false]
  rw [show pySplit (preprocess_text text.data) = wordsOf text from rfl, h1,
    show preprocess_text text.data = cleanOf text from rfl, h2, h3]

theorem extract_of_stage4 {audits : List Audit} {text : String}
    {nm : String} {s : Frac} (hne : audits ≠ [])
    (h1 : stage1 (audit_id_to_name audits) (wordsOf text) = none)
    (h2 : stage2 (audit_name_to_id audits) (cleanOf text) = none)
    (h3 : stage3 (audit_categories audits) (cleanOf text) = none)
    (h4 : best_fuzzy ((audit_name_to_id audits).map (·.1)) (wordsOf text)
        = (some nm, s)) :
    extract_audit_entities audits text =
      ⟨some ⟨(alookup (audit_name_to_id audits) nm).getD "", Frac.mul ⟨85, 100⟩ s⟩,
        some ⟨nm, Frac.mul ⟨85, 100⟩ s⟩, none, "specific_audit", [], true⟩ := by
  have he : audits.isEmpty = false := by simp [List.isEmpty_iff, hne]
  unfold extract_audit_entities
  rw [he]
  simp only [Bool.false_eq_true, if_false]
  rw [show pySplit (preprocess_text text.data) = wordsOf text from rfl, h1,
    show preprocess_text text.data = cleanOf text from rfl, h2, h3, h4]

theorem extract_of_stage5 {audits : List Audit} {text : String}
    {c : String} (hne : audits ≠ [])
    (h1 : stage1 (audit_id_to_name audits) (wordsOf text) = none)
    (h2 : stage2 (audit_name_to_id audits) (cleanOf text) = none)
    (h3 : stage3 (audit_categories audits) (cleanOf text) = none)
    (h4 : (best_fuzzy ((audit_name_to_id audits).map (·.1)) (wordsOf text)).1
        = none)
    (h5 : stage5 (audit_categories audits) (wordsOf text) = some c) :
    extract_audit_entities audits text =
      ⟨none, none, some ⟨c, ⟨85, 100⟩⟩, "category_clarification",
        get_audits_by_category audits c, true⟩ := by
  have he : audits.isEmpty = false := by simp [List.isEmpty_iff, hne]
  have h4' : best_fuzzy ((audit_name_to_id audits).map (·.1)) (wordsOf text)
      = (none, (best_fuzzy ((audit_name_to_id audits).map (·.1)) (wordsOf text)).2) := by
    rw [← h4]
  unfold extract_audit_entities
  rw [he]
  simp only [Bool.false_eq_true, if_false]
  rw [show pySplit (preprocess_text text.data) = wordsOf text from rfl, h1,
    show preprocess_text text.data = cleanOf text from rfl, h2, h3, h4', h5]

theorem extract_of_no_match {audits : List Audit} {text : String}
    (hne : audits ≠ [])
    (h1 : stage1 (audit_id_to_name audits) (wordsOf text) = none)
    (h2 : stage2 (audit_name_to_id audits) (cleanOf text) = none)
    (h3 : stage3 (audit_categories audits) (cleanOf text) = none)
    (h4 : (best_fuzzy ((audit_name_to_id audits).map (·.1)) (wordsOf text)).1
        = none)
    (h5 : stage5 (audit_categories audits) (wordsOf text) = none) :
    extract_audit_entities audits text = ⟨none, none, none, "no_match", [], false⟩ := by
  have he : audits.isEmpty = false := by simp [List.isEmpty_iff, hne]
  have h4' : best_fuzzy ((audit_name_to_id audits).map (·.1)) (wordsOf text)
      = (none, (best_fuzzy ((audit_name_to_id audits).map (·.1)) (wordsOf text)).2) := by
    rw [← h4]
  unfold extract_audit_entities
  rw [he]
  simp only [Bool.false_eq_true, if_false]
  rw [show pySplit (preprocess_text text.data) = wordsOf text from rfl, h1,
    show preprocess_text text.data = cleanOf text from rfl, h2, h3, h4', h5]

/-- Any pair returned by `stage1` is a pairing from `audit_id_to_name`. -/
theorem stage1_sound {idToName : List (String × String)}
    {ws : List (List Char)} {id nm : String}
    (h : stage1 idToName ws = some (id, nm)) :
    alookup idToName id = some nm := by
  obtain ⟨pat, -, hpat⟩ := List.exists_of_findSome?_eq_some h
  obtain ⟨m, -, hm⟩ := List.exists_of_findSome?_eq_some hpat
  revert hm
  cases hl : alookup idToName (String.mk m) with
  | none => intro hm; simp at hm
  | some nm' =>
    intro hm
    simp only [Option.some.injEq, Prod.mk.injEq] at hm
    obtain ⟨rfl, rfl⟩ := hm
    exact hl

/-- If some capture of the first pattern is a known id, stage 1 succeeds. -/
theorem stage1_isSome {idToName : List (String × String)}
    {ws : List (List Char)} {k : Nat} {d : List Char}
    (hp : p1At ws k = some d)
    (hl : (alookup idToName (String.mk d)).isSome = true) :
    (stage1 idToName ws).isSome = true := by
  rw [Option.isSome_iff_ne_none]
  intro hnone
  rw [stage1, List.findSome?_eq_none_iff] at hnone
  have hmem : d ∈ findall p1At ws := by
    rw [findall, List.mem_filterMap]
    refine ⟨k, ?_, hp⟩
    rw [List.mem_range]
    by_contra hk
    rw [not_lt, ← List.get?_eq_none] at hk
    rw [p1At, hk] at hp
    exact absurd hp (by simp)
  have h1 := hnone p1At (by simp [audit_id_patterns])
  rw [List.findSome?_eq_none_iff] at h1
  have := h1 d hmem
  revert this
  cases hl' : alookup idToName (String.mk d) with
  | none => rw [hl'] at hl; simp at hl
  | some nm => simp

end AuditExec

/-! ## Frac helper lemmas -/

theorem Frac.not_flt_self (x : Frac) : Frac.flt x x = false := by
  simp [Frac.flt]

theorem Frac.fle_of_not_flt {x y : Frac} (h : ¬ Frac.flt x y = true) :
    Frac.fle y x = true := by
  simp only [Frac.flt, Frac.fle, decide_eq_true_eq] at *
  omega

theorem Frac.flt_of_not_fle {x y : Frac} (h : ¬ Frac.fle x y = true) :
    Frac.flt y x = true := by
  simp only [Frac.flt, Frac.fle, decide_eq_true_eq] at *
  omega

theorem Frac.flt_trans' {x y z : Frac} (hx : 0 < x.den) (hy : 0 < y.den)
    (hz : 0 < z.den) (h1 : Frac.flt x y = true) (h2 : Frac.flt y z = true) :
    Frac.flt x z = true := by
  rw [Frac.flt_iff_toRat hx hy] at h1
  rw [Frac.flt_iff_toRat hy hz] at h2
  rw [Frac.flt_iff_toRat hx hz]
  exact lt_trans h1 h2

theorem Frac.flt_of_fle_of_flt {x y z : Frac} (hx : 0 < x.den) (hy : 0 < y.den)
    (hz : 0 < z.den) (h1 : Frac.fle x y = true) (h2 : Frac.flt y z = true) :
    Frac.flt x z = true := by
  rw [Frac.fle_iff_toRat hx hy] at h1
  rw [Frac.flt_iff_toRat hy hz] at h2
  rw [Frac.flt_iff_toRat hx hz]
  exact lt_of_le_of_lt h1 h2

theorem Frac.fle_trans' {x y z : Frac} (hx : 0 < x.den) (hy : 0 < y.den)
    (hz : 0 < z.den) (h1 : Frac.fle x y = true) (h2 : Frac.fle y z = true) :
    Frac.fle x z = true := by
  rw [Frac.fle_iff_toRat hx hy] at h1
  rw [Frac.fle_iff_toRat hy hz] at h2
  rw [Frac.fle_iff_toRat hx hz]
  exact le_trans h1 h2

namespace AuditExec

/-! ### Invariants of the stage-4 selection fold -/

theorem matchPercentage_den_pos (tws : List (List Char)) (nm : String) :
    0 < (matchPercentage tws nm).den := by
  by_cases h : (pySplit nm.data).isEmpty = true
  · simp [matchPercentage, h]
  · simp only [matchPercentage, h, if_false, Bool.false_eq_true]
    exact List.length_pos.mpr (by simpa [List.isEmpty_iff] using h)

/-- Characterization of the stage-4 fold, generalized over the starting
accumulator.  Ending on `(some nm, s')` means either no name ever fired
(the start carried `nm` through, and every qualifying name scored at most
`s'`), or `nm` is a qualifying name scoring `s' = match_percentage nm`,
strictly above the start, strictly above every qualifying name before its
occurrence (first-encountered wins ties), and at least every qualifying name
after it. -/
theorem fuzzy_fold_spec (tws : List (List Char)) :
    ∀ (names : List String) (b : Option String) (s : Frac), 0 < s.den →
    ∀ {nm : String} {s' : Frac},
    List.foldl (fuzzy_step tws) (b, s) names = (some nm, s') →
    (b = some nm ∧ s = s' ∧
      ∀ n' ∈ names, Frac.fle ⟨5, 10⟩ (matchPercentage tws n') = true →
        Frac.fle (matchPercentage tws n') s' = true) ∨
    (∃ pre post, names = pre ++ nm :: post ∧
      s' = matchPercentage tws nm ∧
      Frac.fle ⟨5, 10⟩ s' = true ∧
      Frac.flt s s' = true ∧
      (∀ n' ∈ pre, Frac.fle ⟨5, 10⟩ (matchPercentage tws n') = true →
        Frac.flt (matchPercentage tws n') s' = true) ∧
      (∀ n' ∈ post, Frac.fle ⟨5, 10⟩ (matchPercentage tws n') = true →
        Frac.fle (matchPercentage tws n') s' = true)) := by
  intro names
  induction names with
  | nil =>
    intro b s hs nm s' h
    simp only [List.foldl_nil, Prod.mk.injEq] at h
    exact Or.inl ⟨h.1, h.2, by simp⟩
  | cons n rest ih =>
    intro b s hs nm s' h
    rw [List.foldl_cons] at h
    have hstep : fuzzy_step tws (b, s) n =
        if Frac.flt s (matchPercentage tws n) && Frac.fle ⟨5, 10⟩
            (matchPercentage tws n) then (some n, matchPercentage tws n)
        else (b, s) := rfl
    by_cases hf : (Frac.flt s (matchPercentage tws n) &&
        Frac.fle ⟨5, 10⟩ (matchPercentage tws n)) = true
    · rw [hstep, if_pos hf] at h
      rw [Bool.and_eq_true] at hf
      have hmpden : 0 < (matchPercentage tws n).den := matchPercentage_den_pos tws n
      rcases ih (some n) (matchPercentage tws n) hmpden h with
        ⟨hb, hs', hall⟩ | ⟨pre, post, hsplit, hmp, hq, hlt, hpre, hpost⟩
      · injection hb with hb
        subst hb
        right
        refine ⟨[], rest, by simp, hs'.symm, ?_, ?_, by simp, ?_⟩
        · rw [← hs']; exact hf.2
        · rw [← hs']; exact hf.1
        · exact hall
      · right
        have hs'den : 0 < s'.den := by rw [hmp]; exact matchPercentage_den_pos tws nm
        refine ⟨n :: pre, post, by rw [hsplit]; rfl, hmp, hq, ?_, ?_, hpost⟩
        · exact Frac.flt_trans' hs hmpden hs'den hf.1 hlt
        · intro n' hn' hqn'
          rcases List.mem_cons.mp hn' with rfl | hn'
          · exact hlt
          · exact hpre n' hn' hqn'
    · rw [hstep, if_neg hf] at h
      have hnarrow : Frac.fle ⟨5, 10⟩ (matchPercentage tws n) = true →
          Frac.fle (matchPercentage tws n) s = true := by
        intro hq
        have hflt : Frac.flt s (matchPercentage tws n) = false := by
          by_contra hcon
          rw [Bool.not_eq_false] at hcon
          exact hf (by rw [hcon, hq]; rfl)
        exact Frac.fle_of_not_flt (by simp [hflt])
      rcases ih b s hs h with
        ⟨hb, hs', hall⟩ | ⟨pre, post, hsplit, hmp, hq, hlt, hpre, hpost⟩
      · left
        refine ⟨hb, hs', ?_⟩
        intro n' hn' hqn'
        rcases List.mem_cons.mp hn' with rfl | hn'
        · rw [← hs']; exact hnarrow hqn'
        · exact hall n' hn' hqn'
      · right
        have hs'den : 0 < s'.den := by rw [hmp]; exact matchPercentage_den_pos tws nm
        have hmpden : 0 < (matchPercentage tws n).den := matchPercentage_den_pos tws n
        refine ⟨n :: pre, post, by rw [hsplit]; rfl, hmp, hq, hlt, ?_, hpost⟩
        intro n' hn' hqn'
        rcases List.mem_cons.mp hn' with rfl | hn'
        · exact Frac.flt_of_fle_of_flt hmpden hs hs'den (hnarrow hqn') hlt
        · exact hpre n' hn' hqn'

/-- On the start `(None, 0)`, a `some` result always comes from a firing. -/
theorem best_fuzzy_some (tws : List (List Char)) (names : List String)
    {nm : String} {s : Frac} (h : best_fuzzy names tws = (some nm, s)) :
    ∃ pre post, names = pre ++ nm :: post ∧
      s = matchPercentage tws nm ∧
      Frac.fle ⟨5, 10⟩ s = true ∧
      (∀ n' ∈ pre, Frac.fle ⟨5, 10⟩ (matchPercentage tws n') = true →
        Frac.flt (matchPercentage tws n') s = true) ∧
      (∀ n' ∈ post, Frac.fle ⟨5, 10⟩ (matchPercentage tws n') = true →
        Frac.fle (matchPercentage tws n') s = true) := by
  rcases fuzzy_fold_spec tws names none ⟨0, 1⟩ Nat.one_pos h with
    ⟨hb, -, -⟩ | ⟨pre, post, hsplit, hmp, hq, -, hpre, hpost⟩
  · exact absurd hb (by simp)
  · exact ⟨pre, post, hsplit, hmp, hq, hpre, hpost⟩

end AuditExec

namespace Difflib

/-! ### Bounds on `find_longest_match` and the total match count -/

/-- The best block lies inside the region `[alo, ahi) × [blo, bhi)`. -/
def Bounded (alo ahi blo bhi : Nat) (st : FlmState) : Prop :=
  alo ≤ st.besti ∧ blo ≤ st.bestj ∧
    st.besti + st.bestsize ≤ ahi ∧ st.bestj + st.bestsize ≤ bhi

/-- Invariant of a `j2len` row: a value `v` at key `j` is the length of a
match ending at column `j` inside the window, so `blo ≤ j`,
`v + alo ≤ iB` (row built while processing `i = iB - 1`) and
`v + blo ≤ j + 1`. -/
def RowInv (alo blo iB : Nat) (l : List (Nat × Nat)) : Prop :=
  ∀ p ∈ l, blo ≤ p.1 ∧ p.2 + alo ≤ iB ∧ p.2 + blo ≤ p.1 + 1

theorem alget_spec (l : List (Nat × Nat)) (t : Nat) :
    alget l t = 0 ∨ ∃ p ∈ l, p.1 = t ∧ p.2 = alget l t := by
  unfold alget
  cases hf : l.find? (fun p => p.1 == t) with
  | none => exact Or.inl rfl
  | some p =>
    right
    refine ⟨p, List.mem_of_find?_eq_some hf, ?_, rfl⟩
    have := List.find?_some hf
    simpa using this

theorem innerLoop_inv (alo ahi blo bhi i : Nat)
    (j2lenOld : List (Nat × Nat)) (hOld : RowInv alo blo i j2lenOld)
    (halo : alo ≤ i) (hahi : i < ahi) :
    ∀ (js : List Nat) (row : List (Nat × Nat)) (st : FlmState),
    RowInv alo blo (i + 1) row → Bounded alo ahi blo bhi st →
    RowInv alo blo (i + 1) (innerLoop blo bhi i j2lenOld js row st).1 ∧
    Bounded alo ahi blo bhi (innerLoop blo bhi i j2lenOld js row st).2 := by
  intro js
  induction js with
  | nil => intro row st hrow hst; exact ⟨hrow, hst⟩
  | cons j js ih =>
    intro row st hrow hst
    rw [innerLoop]
    by_cases hjlo : j < blo
    · rw [if_pos hjlo]
      exact ih row st hrow hst
    · rw [if_neg hjlo]
      by_cases hjhi : bhi ≤ j
      · rw [if_pos hjhi]
        exact ⟨hrow, hst⟩
      · rw [if_neg hjhi]
        have hblo : blo ≤ j := Nat.le_of_not_lt hjlo
        have hbhi : j < bhi := Nat.lt_of_not_le hjhi
        have hkb : (if j = 0 then 0 else alget j2lenOld (j - 1)) + alo ≤ i ∧
            (if j = 0 then 0 else alget j2lenOld (j - 1)) + blo ≤ j := by
          by_cases hj0 : j = 0
          · rw [if_pos hj0]
            omega
          · rw [if_neg hj0]
            rcases alget_spec j2lenOld (j - 1) with hz | ⟨p, hp, hp1, hp2⟩
            · rw [hz]; omega
            · have := hOld p hp
              omega
        apply ih
        · intro p hp
          rcases List.mem_cons.mp hp with rfl | hp
          · exact ⟨hblo, by omega, by omega⟩
          · exact hrow p hp
        · by_cases hupd :
              st.bestsize < (if j = 0 then 0 else alget j2lenOld (j - 1)) + 1
          · rw [if_pos hupd]
            obtain ⟨g1, g2, g3, g4⟩ := hst
            refine ⟨?_, ?_, ?_, ?_⟩
            · show alo ≤ i + 1 - ((if j = 0 then 0 else alget j2lenOld (j - 1)) + 1)
              omega
            · show blo ≤ j + 1 - ((if j = 0 then 0 else alget j2lenOld (j - 1)) + 1)
              omega
            · show i + 1 - ((if j = 0 then 0 else alget j2lenOld (j - 1)) + 1) +
                  ((if j = 0 then 0 else alget j2lenOld (j - 1)) + 1) ≤ ahi
              omega
            · show j + 1 - ((if j = 0 then 0 else alget j2lenOld (j - 1)) + 1) +
                  ((if j = 0 then 0 else alget j2lenOld (j - 1)) + 1) ≤ bhi
              omega
          · rw [if_neg hupd]
            exact hst

theorem dpLoop_inv (a b : List Char) (alo blo bhi ahi : Nat) :
    ∀ (n i0 : Nat) (j2len : List (Nat × Nat)) (st : FlmState),
    alo ≤ i0 → i0 + n ≤ ahi →
    RowInv alo blo i0 j2len → Bounded alo ahi blo bhi st →
    Bounded alo ahi blo bhi (dpLoop a b alo blo bhi (List.range' i0 n) j2len st) := by
  intro n
  induction n with
  | zero => intro i0 j2len st _ _ _ hst; exact hst
  | succ n ih =>
    intro i0 j2len st h1 h2 hrow hst
    rw [List.range'_succ, dpLoop]
    have hstep := innerLoop_inv alo ahi blo bhi i0 j2len hrow h1
      (by omega) (b2j b (a.getD i0 ' ')) [] st (by intro p hp; simp at hp) hst
    cases hil : innerLoop blo bhi i0 j2len (b2j b (a.getD i0 ' ')) [] st with
    | mk row st' =>
      rw [hil] at hstep
      show Bounded alo ahi blo bhi
        (dpLoop a b alo blo bhi (List.range' (i0 + 1) n) row st')
      exact ih (i0 + 1) row st' (by omega) (by omega) hstep.1 hstep.2

theorem extendLeft_bounded (a b : List Char) (alo blo ahi bhi : Nat) :
    ∀ (fuel : Nat) (st : FlmState), Bounded alo ahi blo bhi st →
    Bounded alo ahi blo bhi (extendLeft a b alo blo fuel st) := by
  intro fuel
  induction fuel with
  | zero => intro st hst; exact hst
  | succ f ih =>
    intro st hst
    rw [extendLeft]
    split
    · next h =>
      obtain ⟨hg1, hg2, -⟩ := h
      obtain ⟨h1, h2, h3, h4⟩ := hst
      refine ih ⟨st.besti - 1, st.bestj - 1, st.bestsize + 1⟩ ⟨?_, ?_, ?_, ?_⟩
      · show alo ≤ st.besti - 1
        omega
      · show blo ≤ st.bestj - 1
        omega
      · show st.besti - 1 + (st.bestsize + 1) ≤ ahi
        omega
      · show st.bestj - 1 + (st.bestsize + 1) ≤ bhi
        omega
    · exact hst

theorem extendRight_bounded (a b : List Char) (alo blo ahi bhi : Nat) :
    ∀ (fuel : Nat) (st : FlmState), Bounded alo ahi blo bhi st →
    Bounded alo ahi blo bhi (extendRight a b ahi bhi fuel st) := by
  intro fuel
  induction fuel with
  | zero => intro st hst; exact hst
  | succ f ih =>
    intro st hst
    rw [extendRight]
    split
    · next h =>
      obtain ⟨hg1, hg2, -⟩ := h
      obtain ⟨h1, h2, h3, h4⟩ := hst
      refine ih ⟨st.besti, st.bestj, st.bestsize + 1⟩ ⟨?_, ?_, ?_, ?_⟩
      · show alo ≤ st.besti
        omega
      · show blo ≤ st.bestj
        omega
      · show st.besti + (st.bestsize + 1) ≤ ahi
        omega
      · show st.bestj + (st.bestsize + 1) ≤ bhi
        omega
    · exact hst

theorem findLongestMatch_bounded (a b : List Char) (alo ahi blo bhi : Nat)
    (h1 : alo ≤ ahi) (h2 : blo ≤ bhi) :
    Bounded alo ahi blo bhi (findLongestMatch a b alo ahi blo bhi) := by
  unfold findLongestMatch
  apply extendRight_bounded a b alo blo
  apply extendLeft_bounded a b alo blo ahi bhi
  exact dpLoop_inv a b alo blo bhi ahi (ahi - alo) alo [] ⟨alo, blo, 0⟩
    (le_refl alo) (by omega) (by intro p hp; simp at hp)
    ⟨le_refl alo, le_refl blo, by simpa using h1, by simpa using h2⟩

/-- The total size of the matching blocks in a window never exceeds either
side of the window. -/
theorem matchTotal_le (a b : List Char) :
    ∀ (fuel alo ahi blo bhi : Nat), alo ≤ ahi → blo ≤ bhi →
    matchTotal a b fuel alo ahi blo bhi ≤ min (ahi - alo) (bhi - blo) := by
  intro fuel
  induction fuel with
  | zero => intro alo ahi blo bhi _ _; simp [matchTotal]
  | succ f ih =>
    intro alo ahi blo bhi h1 h2
    rw [matchTotal]
    obtain ⟨hb1, hb2, hb3, hb4⟩ := findLongestMatch_bounded a b alo ahi blo bhi h1 h2
    set m := findLongestMatch a b alo ahi blo bhi with hm
    by_cases hz : m.bestsize = 0
    · simp [hz]
    · rw [if_neg hz]
      have hL : (if alo < m.besti ∧ blo < m.bestj then
          matchTotal a b f alo m.besti blo m.bestj else 0) ≤
          min (m.besti - alo) (m.bestj - blo) := by
        split
        · next h => exact ih alo m.besti blo m.bestj hb1 hb2
        · exact Nat.zero_le _
      have hR : (if m.besti + m.bestsize < ahi ∧ m.bestj + m.bestsize < bhi then
          matchTotal a b f (m.besti + m.bestsize) ahi (m.bestj + m.bestsize) bhi
          else 0) ≤
          min (ahi - (m.besti + m.bestsize)) (bhi - (m.bestj + m.bestsize)) := by
        split
        · next h => exact ih _ ahi _ bhi (le_of_lt h.1) (le_of_lt h.2)
        · exact Nat.zero_le _
      omega

/-- `M ≤ min(len(a), len(b))`. -/
theorem matchCount_le (a b : List Char) :
    matchCount a b ≤ min a.length b.length := by
  simpa using matchTotal_le a b (a.length + b.length + 1) 0 a.length 0 b.length
    (Nat.zero_le _) (Nat.zero_le _)

end Difflib

/-! ## Claim theorems -/

/-- C2: for every incoming message with a classifier label from the label
set, `handle_task` dispatches directly to a handler with no LLM call iff the
confidence is at least the threshold 0.80 and the label is not `"GENERAL"`;
and a `"GENERAL"` label always goes to the general LLM path, never to a
handler, regardless of confidence. -/
theorem C2_router_confidence_gate (intent : String) (confidence : Frac)
    (llmResponse : String) (hden : 0 < confidence.den)
    (hlabel : intent ∈ Orchestrator.INTENT_LABELS) :
    (((Orchestrator.handle_task intent confidence llmResponse).routedIntent
          = some intent ∧
        (Orchestrator.handle_task intent confidence llmResponse).llmScenarios = [] ∧
        Orchestrator.route_to_agent intent ≠ Orchestrator.RouteTarget.unhandled) ↔
      ((4 / 5 : ℚ) ≤ confidence.toRat ∧ intent ≠ "GENERAL")) ∧
    (intent = "GENERAL" →
      Orchestrator.handle_task intent confidence llmResponse = ⟨none, ["general"]⟩) := by
  have h810 : Orchestrator.CONFIDENCE_THRESHOLD.toRat = 4 / 5 := by
    norm_num [Frac.toRat, Orchestrator.CONFIDENCE_THRESHOLD]
  have hthr : Frac.fle Orchestrator.CONFIDENCE_THRESHOLD confidence = true ↔
      (4 / 5 : ℚ) ≤ confidence.toRat := by
    rw [Frac.fle_iff_toRat (by norm_num [Orchestrator.CONFIDENCE_THRESHOLD]) hden, h810]
  constructor
  · constructor
    · rintro ⟨hr, hs, -⟩
      by_cases hc : Frac.fle Orchestrator.CONFIDENCE_THRESHOLD confidence = true ∧
          intent ≠ "GENERAL"
      · exact ⟨hthr.mp hc.1, hc.2⟩
      · exfalso
        by_cases hg : intent = "GENERAL"
        · simp [Orchestrator.handle_task, hc, hg] at hr
        · simp only [Orchestrator.handle_task, if_neg hc, if_neg hg] at hs
          split at hs <;> simp at hs
    · rintro ⟨hconf, hgen⟩
      have hc : Frac.fle Orchestrator.CONFIDENCE_THRESHOLD confidence = true ∧
          intent ≠ "GENERAL" := ⟨hthr.mpr hconf, hgen⟩
      refine ⟨by simp [Orchestrator.handle_task, hc], by simp [Orchestrator.handle_task, hc], ?_⟩
      simp only [Orchestrator.INTENT_LABELS, List.mem_cons, List.not_mem_nil,
        or_false] at hlabel
      rcases hlabel with rfl | rfl | rfl | rfl | rfl | rfl | rfl <;>
        first
          | exact absurd rfl hgen
          | decide
  · intro hg
    have hc : ¬ (Frac.fle Orchestrator.CONFIDENCE_THRESHOLD confidence = true ∧
        intent ≠ "GENERAL") := by simp [hg]
    simp [Orchestrator.handle_task, hc, hg]

/-- C2 witness: confidence 0.95 with label `"EXECUTE_AUDIT"` satisfies the
gate. -/
theorem C2_router_confidence_gate_witness :
    (((Orchestrator.handle_task "EXECUTE_AUDIT" ⟨95, 100⟩ "").routedIntent
          = some "EXECUTE_AUDIT" ∧
        (Orchestrator.handle_task "EXECUTE_AUDIT" ⟨95, 100⟩ "").llmScenarios = [] ∧
        Orchestrator.route_to_agent "EXECUTE_AUDIT" ≠ Orchestrator.RouteTarget.unhandled) ↔
      ((4 / 5 : ℚ) ≤ (Frac.mk 95 100).toRat ∧ "EXECUTE_AUDIT" ≠ "GENERAL")) ∧
    ("EXECUTE_AUDIT" = "GENERAL" →
      Orchestrator.handle_task "EXECUTE_AUDIT" ⟨95, 100⟩ "" = ⟨none, ["general"]⟩) :=
  C2_router_confidence_gate "EXECUTE_AUDIT" ⟨95, 100⟩ "" (by decide) (by decide)

/-- C10 counterexample: two router messages cause two weight loads, because
`predict_intent` constructs a fresh `IntentClassifier()` per call — the
"at most once per process" claim is false. -/
theorem C10_counterexample_reload_per_call : ¬ Classifier.processLoads 2 ≤ 1 := by
  decide

/-- C10 (amended): weights are lazily loaded at most once per
`IntentClassifier` *instance* (the first `predict` call on a fresh instance
loads, later calls on the same instance reuse), but the orchestrator's
`predict_intent` builds a fresh instance per call, so over `n` routed
messages the weights are loaded `n` times. -/
theorem C10_lazy_load_per_instance (n : Nat) :
    Classifier.instanceLoads Classifier.newClassifier n = min n 1 ∧
    Classifier.processLoads n = n := by
  have hloaded : ∀ m, Classifier.instanceLoads ⟨true⟩ m = 0 := by
    intro m
    induction m with
    | zero => rfl
    | succ m ih => simpa [Classifier.instanceLoads, Classifier.predictStep] using ih
  constructor
  · cases n with
    | zero => rfl
    | succ m =>
      simp [Classifier.instanceLoads, Classifier.predictStep, Classifier.newClassifier,
        hloaded m]
  · induction n with
    | zero => rfl
    | succ m ih =>
      simp only [Classifier.processLoads, Classifier.predict_intent_loads,
        Classifier.predictStep, Classifier.newClassifier, ih]
      simp
      omega

/-- C3 counterexample: with a previously cached snapshot holding one audit
and the backing store unreachable, `refresh_all_data` does *not* leave the
cached snapshot untouched — it replaces it with a freshly built dict whose
audits list is empty (and it returns that dict, which is always truthy,
not `False`). -/
theorem C3_counterexample_cache_clobbered :
    Db.cacheAfterRefresh none (some ⟨[⟨"16", "Cisco Audit New", "Network"⟩]⟩)
        ≠ some ⟨[⟨"16", "Cisco Audit New", "Network"⟩]⟩ ∧
    Db.cacheAfterRefresh none (some ⟨[⟨"16", "Cisco Audit New", "Network"⟩]⟩)
        = some ⟨[]⟩ := by
  decide

/-- C3 (amended): the claimed fallback lives one level up, in
`ExecutionEntityExtractor.refresh_data_if_needed`: when the store is
unreachable or returns no audits it returns `False` and leaves the
extractor's snapshot untouched, and in every case the extractor serves
either its old snapshot or the complete fresh one — but the module-level
`_cached_data` of `database.py` is unconditionally replaced. -/
theorem C3_extractor_refresh_fallback (s : Db.ExtractorState)
    (db : Option (List AuditExec.Audit)) :
    (Db.load_audits_data_from_db db = [] →
      Db.refresh_data_if_needed s db = (s, false)) ∧
    ((Db.refresh_data_if_needed s db).1.audits_data = s.audits_data ∨
      (Db.refresh_data_if_needed s db).1.audits_data = (Db.refresh_all_data db).audits) := by
  constructor
  · intro h
    simp [Db.refresh_data_if_needed, Db.refresh_all_data, h]
  · by_cases h : (Db.refresh_all_data db).audits.isEmpty = true
    · left; simp [Db.refresh_data_if_needed, h]
    · right; simp [Db.refresh_data_if_needed, h]

/-- C3 witness: unreachable store, extractor holding one audit. -/
theorem C3_extractor_refresh_fallback_witness :
    Db.refresh_data_if_needed ⟨[⟨"16", "Cisco Audit New", "Network"⟩]⟩ none
      = (⟨[⟨"16", "Cisco Audit New", "Network"⟩]⟩, false) :=
  (C3_extractor_refresh_fallback ⟨[⟨"16", "Cisco Audit New", "Network"⟩]⟩ none).1 (by decide)

/-- C6 counterexample: a low-confidence clarification response that contains
the substring `"execute_audit"` but also `"list_audits"` is routed to the
retrieval handler, not the execute handler — the keyword table is scanned in
a fixed order and `list_audits` is checked first. -/
theorem C6_counterexample_keyword_order :
    AuditExec.listContains
        (AuditExec.lowerStr
          "I considered EXECUTE_AUDIT but classify this as LIST_AUDITS").data
        "execute_audit".data = true ∧
    Frac.flt ⟨5, 10⟩ Orchestrator.CONFIDENCE_THRESHOLD = true ∧
    Orchestrator.handle_task "EXECUTE_AUDIT" ⟨5, 10⟩
        "I considered EXECUTE_AUDIT but classify this as LIST_AUDITS" =
      ⟨some "LIST_AUDITS", ["low_confidence"]⟩ ∧
    Orchestrator.route_to_agent "LIST_AUDITS" =
      Orchestrator.RouteTarget.delegate "AuditRetrievalAgent" "list_audits" ∧
    Orchestrator.route_to_agent "LIST_AUDITS" ≠
      Orchestrator.RouteTarget.delegate "ExecuteAuditAgent" "execute_audit" := by
  decide

/-- C6 (amended): a below-threshold, non-`"GENERAL"` classification always
enters the LLM clarification path; the final intent is decided by substring
search of the response against the fixed ordered keyword table, so a
response containing `"execute_audit"` and none of the keywords checked
before it dispatches to the execute handler, and a response containing no
keyword at all is treated as `"GENERAL"`. -/
theorem C6_llm_clarification_keyword_routing (intent : String)
    (confidence : Frac) (resp : String) (hden : 0 < confidence.den)
    (hgen : intent ≠ "GENERAL") (hconf : confidence.toRat < 4 / 5) :
    ((Orchestrator.handle_task intent confidence resp).llmScenarios.head?
        = some "low_confidence") ∧
    (AuditExec.listContains (AuditExec.lowerStr resp).data "execute_audit".data = true →
      AuditExec.listContains (AuditExec.lowerStr resp).data "list_audits".data = false →
      AuditExec.listContains (AuditExec.lowerStr resp).data
        "audit_retrieval_by_category".data = false →
      AuditExec.listContains (AuditExec.lowerStr resp).data
        "get_audit_history_filtered".data = false →
      AuditExec.listContains (AuditExec.lowerStr resp).data
        "get_audit_history".data = false →
      Orchestrator.handle_task intent confidence resp =
          ⟨some "EXECUTE_AUDIT", ["low_confidence"]⟩ ∧
        Orchestrator.route_to_agent "EXECUTE_AUDIT" =
          Orchestrator.RouteTarget.delegate "ExecuteAuditAgent" "execute_audit") ∧
    ((∀ kw ∈ ["list_audits", "audit_retrieval_by_category",
        "get_audit_history_filtered", "get_audit_history", "execute_audit",
        "engineer_audit"],
        AuditExec.listContains (AuditExec.lowerStr resp).data kw.data = false) →
      Orchestrator.handle_task intent confidence resp =
        ⟨none, ["low_confidence", "general"]⟩) := by
  have h810 : Orchestrator.CONFIDENCE_THRESHOLD.toRat = 4 / 5 := by
    norm_num [Frac.toRat, Orchestrator.CONFIDENCE_THRESHOLD]
  have hfle : ¬ Frac.fle Orchestrator.CONFIDENCE_THRESHOLD confidence = true := by
    rw [Frac.fle_iff_toRat (by norm_num [Orchestrator.CONFIDENCE_THRESHOLD]) hden, h810]
    exact not_le.mpr hconf
  have hc : ¬ (Frac.fle Orchestrator.CONFIDENCE_THRESHOLD confidence = true ∧
      intent ≠ "GENERAL") := fun h => hfle h.1
  have hfle' : Frac.fle Orchestrator.CONFIDENCE_THRESHOLD confidence = false :=
    Bool.eq_false_iff.mpr hfle
  refine ⟨?_, ?_, ?_⟩
  · by_cases hcl : Orchestrator.extract_intent_from_llm_response resp = "GENERAL" <;>
      simp [Orchestrator.handle_task, hc, hgen, hcl, hfle']
  · intro h5 h1 h2 h3 h4
    have hcl : Orchestrator.extract_intent_from_llm_response resp = "EXECUTE_AUDIT" := by
      simp [Orchestrator.extract_intent_from_llm_response, h1, h2, h3, h4, h5]
    refine ⟨?_, by decide⟩
    simp [Orchestrator.handle_task, hc, hgen, hcl, hfle']
  · intro hnone
    have hcl : Orchestrator.extract_intent_from_llm_response resp = "GENERAL" := by
      have k1 := hnone "list_audits" (by simp)
      have k2 := hnone "audit_retrieval_by_category" (by simp)
      have k3 := hnone "get_audit_history_filtered" (by simp)
      have k4 := hnone "get_audit_history" (by simp)
      have k5 := hnone "execute_audit" (by simp)
      have k6 := hnone "engineer_audit" (by simp)
      simp [Orchestrator.extract_intent_from_llm_response, k1, k2, k3, k4, k5, k6]
    simp [Orchestrator.handle_task, hc, hgen, hcl, hfle']

/-- C6 witness: confidence 0.50 with label `"EXECUTE_AUDIT"` and a response
naming only `execute_audit`. -/
theorem C6_llm_clarification_keyword_routing_witness :
    Orchestrator.handle_task "EXECUTE_AUDIT" ⟨5, 10⟩
        "Based on the user message, I classify this as EXECUTE_AUDIT" =
      ⟨some "EXECUTE_AUDIT", ["low_confidence"]⟩ ∧
    Orchestrator.route_to_agent "EXECUTE_AUDIT" =
      Orchestrator.RouteTarget.delegate "ExecuteAuditAgent" "execute_audit" :=
  (C6_llm_clarification_keyword_routing "EXECUTE_AUDIT" ⟨5, 10⟩
    "Based on the user message, I classify this as EXECUTE_AUDIT"
    (by decide) (by decide) (by norm_num [Frac.toRat])).2.1
    (by decide) (by decide) (by decide) (by decide) (by decide)

/-- C7: the `ENGINEER_AUDIT` branch inserts the work item before any
notification is published; when the insert returns no id or raises, the
user gets the error response (distinct from the success response) and no
`EngineerTask` message is published. -/
theorem C7_engineer_insert_before_notify (outcome : Orchestrator.InsertOutcome) :
    (Orchestrator.route_engineer outcome).head? = some Orchestrator.Event.dbInsert ∧
    (∀ tid, Orchestrator.Event.publishEngineerTask tid ∈
        Orchestrator.route_engineer outcome →
      outcome = Orchestrator.InsertOutcome.ok tid) ∧
    ((outcome = Orchestrator.InsertOutcome.noId ∨
        outcome = Orchestrator.InsertOutcome.raised) →
      Orchestrator.route_engineer outcome =
        [Orchestrator.Event.dbInsert,
         Orchestrator.Event.userResponse Orchestrator.engineer_error_message]) ∧
    Orchestrator.engineer_error_message ≠ Orchestrator.engineer_success_message := by
  refine ⟨?_, ?_, ?_, by decide⟩ <;>
    cases outcome <;> simp [Orchestrator.route_engineer]

/-- C7 witness: a failed insert (`None` task id). -/
theorem C7_engineer_insert_before_notify_witness :
    Orchestrator.route_engineer Orchestrator.InsertOutcome.noId =
      [Orchestrator.Event.dbInsert,
       Orchestrator.Event.userResponse Orchestrator.engineer_error_message] ∧
    Orchestrator.engineer_error_message ≠ Orchestrator.engineer_success_message :=
  ⟨(C7_engineer_insert_before_notify Orchestrator.InsertOutcome.noId).2.2.1 (Or.inl rfl),
   (C7_engineer_insert_before_notify Orchestrator.InsertOutcome.noId).2.2.2⟩

/-- The one-audit catalog of the spec's scenarios:
`[{id: 16, name: "Cisco Audit New", category: "Network"}]`. -/
def catalog16 : List AuditExec.Audit := [⟨"16", "Cisco Audit New", "Network"⟩]

/-- C8: `extract_audit_entities` is total (it is a function in this model);
an empty catalog short-circuits to a well-typed `"no_data"` result with
`success = false` before any matching stage runs, and a non-empty catalog
whose whole cascade is exhausted yields `"no_match"` with zero entities. -/
theorem C8_no_data_and_no_match (audits : List AuditExec.Audit) (text : String) :
    (audits = [] →
      AuditExec.extract_audit_entities audits text =
        ⟨none, none, none, "no_data", [], false⟩) ∧
    (audits ≠ [] →
      AuditExec.stage1 (AuditExec.audit_id_to_name audits) (AuditExec.wordsOf text) = none →
      AuditExec.stage2 (AuditExec.audit_name_to_id audits) (AuditExec.cleanOf text) = none →
      AuditExec.stage3 (AuditExec.audit_categories audits) (AuditExec.cleanOf text) = none →
      (AuditExec.best_fuzzy ((AuditExec.audit_name_to_id audits).map (·.1))
          (AuditExec.wordsOf text)).1 = none →
      AuditExec.stage5 (AuditExec.audit_categories audits) (AuditExec.wordsOf text) = none →
      AuditExec.extract_audit_entities audits text =
        ⟨none, none, none, "no_match", [], false⟩) :=
  ⟨fun h => AuditExec.extract_of_empty text h,
   fun hne h1 h2 h3 h4 h5 => AuditExec.extract_of_no_match hne h1 h2 h3 h4 h5⟩

/-- C8 witness: an empty catalog, and an exhausted cascade. -/
theorem C8_no_data_and_no_match_witness :
    AuditExec.extract_audit_entities [] "run audit 16" =
      ⟨none, none, none, "no_data", [], false⟩ ∧
    AuditExec.extract_audit_entities catalog16 "hello there" =
      ⟨none, none, none, "no_match", [], false⟩ :=
  ⟨(C8_no_data_and_no_match [] "run audit 16").1 rfl,
   (C8_no_data_and_no_match catalog16 "hello there").2 (by decide) (by decide)
     (by decide) (by decide) (by decide) (by decide)⟩

/-- C4: whenever the cleaned text has adjacent words `audit` and `n` with the
numeric `n` a known catalog id, the result is `"specific_audit"` with an
`audit_id` entity at confidence 1.0 and an `audit_name` entity at confidence
1.0 whose value is the display name paired (in `audit_id_to_name`) with the
returned id; and the spec's scenario `"run audit 16"` against `catalog16`
yields exactly those two entities. -/
theorem C4_exact_audit_id_match :
    (∀ (audits : List AuditExec.Audit) (text : String) (k : Nat) (d : List Char),
      (AuditExec.wordsOf text).get? k = some "audit".data →
      (AuditExec.wordsOf text).get? (k + 1) = some d →
      AuditExec.isDigitsWord d = true →
      (AuditExec.alookup (AuditExec.audit_id_to_name audits) (String.mk d)).isSome
        = true →
      ∃ id nm,
        AuditExec.alookup (AuditExec.audit_id_to_name audits) id = some nm ∧
        AuditExec.extract_audit_entities audits text =
          ⟨some ⟨id, ⟨1, 1⟩⟩, some ⟨nm, ⟨1, 1⟩⟩, none, "specific_audit", [], true⟩) ∧
    AuditExec.extract_audit_entities catalog16 "run audit 16" =
      ⟨some ⟨"16", ⟨1, 1⟩⟩, some ⟨"Cisco Audit New", ⟨1, 1⟩⟩, none,
        "specific_audit", [], true⟩ := by
  constructor
  · intro audits text k d hk hk1 hdig hlook
    have hdid : (d == "id".data) = false := by
      rw [beq_eq_false_iff_ne]
      intro h
      rw [h] at hdig
      exact absurd hdig (by decide)
    have hp : AuditExec.p1At (AuditExec.wordsOf text) k = some d := by
      rw [AuditExec.p1At, hk, hk1]
      simp [hdid, hdig]
    have hne : audits ≠ [] := by
      intro h
      rw [h] at hlook
      simp [AuditExec.alookup, AuditExec.audit_id_to_name] at hlook
    have hs := AuditExec.stage1_isSome hp hlook
    obtain ⟨⟨id, nm⟩, h1⟩ := Option.isSome_iff_exists.mp hs
    exact ⟨id, nm, AuditExec.stage1_sound h1, AuditExec.extract_of_stage1 hne h1⟩
  · decide

/-- C4 witness: `catalog16`, `"run audit 16"`, words 1 and 2. -/
theorem C4_exact_audit_id_match_witness :
    ∃ id nm,
      AuditExec.alookup (AuditExec.audit_id_to_name catalog16) id = some nm ∧
      AuditExec.extract_audit_entities catalog16 "run audit 16" =
        ⟨some ⟨id, ⟨1, 1⟩⟩, some ⟨nm, ⟨1, 1⟩⟩, none, "specific_audit", [], true⟩ :=
  C4_exact_audit_id_match.1 catalog16 "run audit 16" 1 "16".data
    (by decide) (by decide) (by decide) (by decide)

/-- C1: the five matching stages form a strict priority cascade — each stage
decides the result only when every earlier stage returned nothing, and in
particular a text containing an exact category word (with stages 1–2 empty)
always yields `"category_clarification"`, whether or not the fuzzy
audit-name stage would have matched. -/
theorem C1_strict_priority_cascade (audits : List AuditExec.Audit)
    (text : String) (hne : audits ≠ []) :
    (∀ id nm,
      AuditExec.stage1 (AuditExec.audit_id_to_name audits) (AuditExec.wordsOf text)
          = some (id, nm) →
      AuditExec.extract_audit_entities audits text =
        ⟨some ⟨id, ⟨1, 1⟩⟩, some ⟨nm, ⟨1, 1⟩⟩, none, "specific_audit", [], true⟩) ∧
    (AuditExec.stage1 (AuditExec.audit_id_to_name audits) (AuditExec.wordsOf text) = none →
      ∀ nm id,
      AuditExec.stage2 (AuditExec.audit_name_to_id audits) (AuditExec.cleanOf text)
          = some (nm, id) →
      AuditExec.extract_audit_entities audits text =
        ⟨some ⟨id, ⟨1, 1⟩⟩, some ⟨nm, ⟨1, 1⟩⟩, none, "specific_audit", [], true⟩) ∧
    (AuditExec.stage1 (AuditExec.audit_id_to_name audits) (AuditExec.wordsOf text) = none →
      AuditExec.stage2 (AuditExec.audit_name_to_id audits) (AuditExec.cleanOf text) = none →
      ∀ c,
      AuditExec.stage3 (AuditExec.audit_categories audits) (AuditExec.cleanOf text)
          = some c →
      AuditExec.extract_audit_entities audits text =
        ⟨none, none, some ⟨c, ⟨1, 1⟩⟩, "category_clarification",
          AuditExec.get_audits_by_category audits c, true⟩) ∧
    (AuditExec.stage1 (AuditExec.audit_id_to_name audits) (AuditExec.wordsOf text) = none →
      AuditExec.stage2 (AuditExec.audit_name_to_id audits) (AuditExec.cleanOf text) = none →
      AuditExec.stage3 (AuditExec.audit_categories audits) (AuditExec.cleanOf text) = none →
      ∀ nm s,
      AuditExec.best_fuzzy ((AuditExec.audit_name_to_id audits).map (·.1))
          (AuditExec.wordsOf text) = (some nm, s) →
      AuditExec.extract_audit_entities audits text =
        ⟨some ⟨(AuditExec.alookup (AuditExec.audit_name_to_id audits) nm).getD "",
            Frac.mul ⟨85, 100⟩ s⟩,
          some ⟨nm, Frac.mul ⟨85, 100⟩ s⟩, none, "specific_audit", [], true⟩) ∧
    (AuditExec.stage1 (AuditExec.audit_id_to_name audits) (AuditExec.wordsOf text) = none →
      AuditExec.stage2 (AuditExec.audit_name_to_id audits) (AuditExec.cleanOf text) = none →
      (∃ c ∈ AuditExec.audit_categories audits,
        AuditExec.listContains (AuditExec.cleanOf text) c.data = true) →
      (AuditExec.extract_audit_entities audits text).rtype = "category_clarification" ∧
      (AuditExec.extract_audit_entities audits text).success = true) := by
  refine ⟨fun id nm h1 => AuditExec.extract_of_stage1 hne h1,
    fun h1 nm id h2 => AuditExec.extract_of_stage2 hne h1 h2,
    fun h1 h2 c h3 => AuditExec.extract_of_stage3 hne h1 h2 h3,
    fun h1 h2 h3 nm s h4 => AuditExec.extract_of_stage4 hne h1 h2 h3 h4,
    fun h1 h2 hc => ?_⟩
  obtain ⟨c, hc1, hc2⟩ := hc
  have h3 : (AuditExec.stage3 (AuditExec.audit_categories audits)
      (AuditExec.cleanOf text)).isSome = true := by
    rw [Option.isSome_iff_ne_none]
    intro h
    rw [AuditExec.stage3, List.find?_eq_none] at h
    exact absurd hc2 (by simpa using h c hc1)
  obtain ⟨c', h3'⟩ := Option.isSome_iff_exists.mp h3
  rw [AuditExec.extract_of_stage3 hne h1 h2 h3']
  exact ⟨rfl, rfl⟩

/-- C1 witness: `"network cisco audyt"` contains the exact category word
`network` while the fuzzy stage would also have matched the name
`cisco audit new` (2 of 3 words similar); the exact-category stage wins. -/
theorem C1_strict_priority_cascade_witness :
    AuditExec.extract_audit_entities catalog16 "network cisco audyt" =
      ⟨none, none, some ⟨"network", ⟨1, 1⟩⟩, "category_clarification",
        catalog16, true⟩ ∧
    (AuditExec.best_fuzzy ((AuditExec.audit_name_to_id catalog16).map (·.1))
        (AuditExec.wordsOf "network cisco audyt")).1 = some "cisco audit new" :=
  ⟨(C1_strict_priority_cascade catalog16 "network cisco audyt" (by decide)).2.2.1
      (by decide) (by decide) "network" (by decide),
   by decide⟩

/-- C5: in the fuzzy audit-name stage, `match_percentage` is the fraction of
audit-name words having some text word with similarity ≥ 0.70; the stage
scans every known name and keeps the highest `match_percentage` subject to
`match_percentage ≥ 0.5`, first-encountered name winning ties; a success
carries confidence `0.85 × match_percentage`; and a name with 1 of 4 words
similar is never selected. -/
theorem C5_fuzzy_name_stage (audits : List AuditExec.Audit) (text : String)
    (hne : audits ≠ [])
    (h1 : AuditExec.stage1 (AuditExec.audit_id_to_name audits)
        (AuditExec.wordsOf text) = none)
    (h2 : AuditExec.stage2 (AuditExec.audit_name_to_id audits)
        (AuditExec.cleanOf text) = none)
    (h3 : AuditExec.stage3 (AuditExec.audit_categories audits)
        (AuditExec.cleanOf text) = none) :
    (∀ nm : String, AuditExec.pySplit nm.data ≠ [] →
      (AuditExec.matchPercentage (AuditExec.wordsOf text) nm).toRat =
        ((AuditExec.pySplit nm.data).countP (fun aw =>
            (AuditExec.wordsOf text).any fun tw =>
              Frac.fle ⟨70, 100⟩
                (AuditExec.similarity (String.mk aw) (String.mk tw))) : ℚ) /
          ((AuditExec.pySplit nm.data).length : ℚ)) ∧
    (∀ nm s,
      AuditExec.best_fuzzy ((AuditExec.audit_name_to_id audits).map (·.1))
          (AuditExec.wordsOf text) = (some nm, s) →
      nm ∈ (AuditExec.audit_name_to_id audits).map (·.1) ∧
      s = AuditExec.matchPercentage (AuditExec.wordsOf text) nm ∧
      (1 / 2 : ℚ) ≤ s.toRat ∧
      (∀ n' ∈ (AuditExec.audit_name_to_id audits).map (·.1),
        (AuditExec.matchPercentage (AuditExec.wordsOf text) n').toRat ≤ s.toRat) ∧
      (∃ pre post,
        (AuditExec.audit_name_to_id audits).map (·.1) = pre ++ nm :: post ∧
        ∀ n' ∈ pre,
          (1 / 2 : ℚ) ≤ (AuditExec.matchPercentage (AuditExec.wordsOf text) n').toRat →
          (AuditExec.matchPercentage (AuditExec.wordsOf text) n').toRat < s.toRat) ∧
      AuditExec.extract_audit_entities audits text =
        ⟨some ⟨(AuditExec.alookup (AuditExec.audit_name_to_id audits) nm).getD "",
            Frac.mul ⟨85, 100⟩ s⟩,
          some ⟨nm, Frac.mul ⟨85, 100⟩ s⟩, none, "specific_audit", [], true⟩ ∧
      (Frac.mul ⟨85, 100⟩ s).toRat = 17 / 20 * s.toRat) ∧
    ((∀ n' ∈ (AuditExec.audit_name_to_id audits).map (·.1),
        (AuditExec.matchPercentage (AuditExec.wordsOf text) n').toRat < 1 / 2) →
      (AuditExec.best_fuzzy ((AuditExec.audit_name_to_id audits).map (·.1))
          (AuditExec.wordsOf text)).1 = none) ∧
    (∀ nm s, (AuditExec.pySplit nm.data).length = 4 →
      (AuditExec.pySplit nm.data).countP (fun aw =>
          (AuditExec.wordsOf text).any fun tw =>
            Frac.fle ⟨70, 100⟩
              (AuditExec.similarity (String.mk aw) (String.mk tw))) = 1 →
      AuditExec.best_fuzzy ((AuditExec.audit_name_to_id audits).map (·.1))
          (AuditExec.wordsOf text) ≠ (some nm, s)) := by
  have hhalf : (Frac.mk 5 10).toRat = 1 / 2 := by norm_num [Frac.toRat]
  have hden10 : 0 < (Frac.mk 5 10).den := by decide
  refine ⟨?_, ?_, ?_, ?_⟩
  · intro nm hnm
    have hie : (AuditExec.pySplit nm.data).isEmpty = false := by
      simp [List.isEmpty_iff, hnm]
    simp [AuditExec.matchPercentage, hie, Frac.toRat]
  · intro nm s hb
    obtain ⟨pre, post, hsplit, hmpeq, hq, hpre, hpost⟩ :=
      AuditExec.best_fuzzy_some (AuditExec.wordsOf text) _ hb
    have hsden : 0 < s.den := by
      rw [hmpeq]; exact AuditExec.matchPercentage_den_pos _ _
    have hhalfle : (1 / 2 : ℚ) ≤ s.toRat := by
      rw [← hhalf, ← Frac.fle_iff_toRat hden10 hsden]; exact hq
    have hboundspre : ∀ n' ∈ pre,
        (AuditExec.matchPercentage (AuditExec.wordsOf text) n').toRat ≤ s.toRat := by
      intro n' hn'
      by_cases hq' : Frac.fle ⟨5, 10⟩
          (AuditExec.matchPercentage (AuditExec.wordsOf text) n') = true
      · exact le_of_lt ((Frac.flt_iff_toRat
          (AuditExec.matchPercentage_den_pos _ _) hsden).mp (hpre n' hn' hq'))
      · have := (Frac.flt_iff_toRat (AuditExec.matchPercentage_den_pos _ _)
          hden10).mp (Frac.flt_of_not_fle hq')
        rw [hhalf] at this
        exact le_trans (le_of_lt this) hhalfle
    have hboundspost : ∀ n' ∈ post,
        (AuditExec.matchPercentage (AuditExec.wordsOf text) n').toRat ≤ s.toRat := by
      intro n' hn'
      by_cases hq' : Frac.fle ⟨5, 10⟩
          (AuditExec.matchPercentage (AuditExec.wordsOf text) n') = true
      · exact (Frac.fle_iff_toRat (AuditExec.matchPercentage_den_pos _ _)
          hsden).mp (hpost n' hn' hq')
      · have := (Frac.flt_iff_toRat (AuditExec.matchPercentage_den_pos _ _)
          hden10).mp (Frac.flt_of_not_fle hq')
        rw [hhalf] at this
        exact le_trans (le_of_lt this) hhalfle
    refine ⟨by rw [hsplit]; exact List.mem_append_right _ (List.mem_cons_self _ _),
      hmpeq, hhalfle, ?_, ⟨pre, post, hsplit, ?_⟩,
      AuditExec.extract_of_stage4 hne h1 h2 h3 hb, ?_⟩
    · intro n' hn'
      rw [hsplit] at hn'
      rcases List.mem_append.mp hn' with hn' | hn'
      · exact hboundspre n' hn'
      · rcases List.mem_cons.mp hn' with rfl | hn'
        · rw [← hmpeq]
        · exact hboundspost n' hn'
    · intro n' hn' hq'
      have hq'' : Frac.fle ⟨5, 10⟩
          (AuditExec.matchPercentage (AuditExec.wordsOf text) n') = true := by
        rw [Frac.fle_iff_toRat hden10 (AuditExec.matchPercentage_den_pos _ _), hhalf]
        exact hq'
      exact (Frac.flt_iff_toRat (AuditExec.matchPercentage_den_pos _ _)
        hsden).mp (hpre n' hn' hq'')
    · rw [Frac.toRat_mul]
      norm_num [Frac.toRat]
  · intro hall
    cases hbf : AuditExec.best_fuzzy ((AuditExec.audit_name_to_id audits).map (·.1))
        (AuditExec.wordsOf text) with
    | mk b s2 =>
      cases b with
      | none => rfl
      | some nm =>
        exfalso
        obtain ⟨pre, post, hsplit, hmpeq, hq, -, -⟩ :=
          AuditExec.best_fuzzy_some (AuditExec.wordsOf text) _ hbf
        have hmem : nm ∈ (AuditExec.audit_name_to_id audits).map (·.1) := by
          rw [hsplit]; exact List.mem_append_right _ (List.mem_cons_self _ _)
        have hlt := hall nm hmem
        rw [← hmpeq] at hlt
        have hs2den : 0 < s2.den := by
          rw [hmpeq]; exact AuditExec.matchPercentage_den_pos _ _
        rw [Frac.fle_iff_toRat hden10 hs2den, hhalf] at hq
        exact absurd hq (not_le.mpr hlt)
  · intro nm s hlen hcnt hbest
    obtain ⟨-, -, hsplit, hmpeq, hq, -, -⟩ :=
      AuditExec.best_fuzzy_some (AuditExec.wordsOf text) _ hbest
    have hnn : AuditExec.pySplit nm.data ≠ [] := by
      intro h; rw [h] at hlen; simp at hlen
    have hie : (AuditExec.pySplit nm.data).isEmpty = false := by
      simp [List.isEmpty_iff, hnn]
    have hval : AuditExec.matchPercentage (AuditExec.wordsOf text) nm = ⟨1, 4⟩ := by
      simp only [AuditExec.matchPercentage, hie, Bool.false_eq_true, if_false]
      rw [hcnt, hlen]
    rw [hval] at hmpeq
    rw [hmpeq] at hq
    exact absurd hq (by decide)

/-- C5 witness: `"run cisko audt new"` against `catalog16` — all three words
of `cisco audit new` have a ≥ 0.70-similar text word, so
`match_percentage = 3/3` and the confidence is `0.85 × 1`. -/
theorem C5_fuzzy_name_stage_witness :
    AuditExec.best_fuzzy ((AuditExec.audit_name_to_id catalog16).map (·.1))
        (AuditExec.wordsOf "run cisko audt new") = (some "cisco audit new", ⟨3, 3⟩) ∧
    AuditExec.extract_audit_entities catalog16 "run cisko audt new" =
      ⟨some ⟨"16", Frac.mul ⟨85, 100⟩ ⟨3, 3⟩⟩,
        some ⟨"cisco audit new", Frac.mul ⟨85, 100⟩ ⟨3, 3⟩⟩, none,
        "specific_audit", [], true⟩ ∧
    (Frac.mul ⟨85, 100⟩ ⟨3, 3⟩).toRat = 17 / 20 * (Frac.mk 3 3).toRat := by
  have h := (C5_fuzzy_name_stage catalog16 "run cisko audt new"
    (by decide) (by decide) (by decide) (by decide)).2.1
    "cisco audit new" ⟨3, 3⟩ (by decide)
  refine ⟨by decide, ?_, h.2.2.2.2.2.2⟩
  have he := h.2.2.2.2.2.1
  rw [he]
  decide

/-- C9 counterexample: `similarity` is not symmetric.
`SequenceMatcher(None, "aba", "babba").ratio() = 0.75` but
`SequenceMatcher(None, "babba", "aba").ratio() = 0.5`: the greedy
longest-match recursion keeps different residual regions depending on the
argument order. -/
theorem C9_counterexample_asymmetric :
    AuditExec.similarity "aba" "babba" = ⟨6, 8⟩ ∧
    AuditExec.similarity "babba" "aba" = ⟨4, 8⟩ ∧
    (AuditExec.similarity "aba" "babba").toRat ≠
      (AuditExec.similarity "babba" "aba").toRat := by
  refine ⟨by decide, by decide, ?_⟩
  rw [show AuditExec.similarity "aba" "babba" = ⟨6, 8⟩ from by decide,
    show AuditExec.similarity "babba" "aba" = ⟨4, 8⟩ from by decide]
  norm_num [Frac.toRat]

/-- C9 (amended): for every pair of strings, `similarity` lies in [0, 1]
(`2M ≤ len(a) + len(b)` since the matching blocks are disjoint in each
sequence); symmetry however fails in general. -/
theorem C9_similarity_in_unit_interval (a b : String) :
    0 ≤ (AuditExec.similarity a b).toRat ∧
      (AuditExec.similarity a b).toRat ≤ 1 := by
  refine ⟨Frac.toRat_nonneg _, ?_⟩
  unfold AuditExec.similarity Difflib.ratio
  by_cases h :
      (a.data.map Char.toLower).length + (b.data.map Char.toLower).length = 0
  · rw [if_pos h]
    norm_num [Frac.toRat]
  · rw [if_neg h]
    have hM := Difflib.matchCount_le (a.data.map Char.toLower)
      (b.data.map Char.toLower)
    have h2M : 2 * Difflib.matchCount (a.data.map Char.toLower)
        (b.data.map Char.toLower) ≤
        (a.data.map Char.toLower).length + (b.data.map Char.toLower).length := by
      omega
    simp only [Frac.toRat]
    rw [div_le_one (by exact_mod_cast Nat.pos_of_ne_zero h)]
    exact_mod_cast h2M

